/-
Verification of the competitive-analysis-agent repository.

Shallow embedding of `src/utils/memory.py` (class MemoryManager) and
`src/utils/evaluator.py` (class AgentEvaluator).  Python dicts are modelled
as association lists that preserve insertion order (a set of an existing key
replaces the value in place, a set of a new key appends), Python floats as
rationals, `datetime.now()` as an explicit timestamp argument, and the file
system as an explicit map from paths to stored values.  Python text is
modelled as `List Char`; the case-insensitive regular expressions of the
evaluator are compiled to executable matchers over the lowercased text.
Fallible Python code (statements that can raise) returns `Except String`.
-/

import Mathlib

/-- Values stored in a Python dict such as `session_data` (strings, ints). -/
inductive Val where
  | vStr (s : String)
  | vInt (n : Int)
  | vBool (b : Bool)
deriving DecidableEq

/-- Python dict lookup `d.get(key)` / `d[key]` (first matching key). -/
def dictGet {α : Type} : List (String × α) → String → Option α
  | [], _ => none
  | (k, v) :: rest, key => if k = key then some v else dictGet rest key

/-- Python dict assignment `d[key] = v`: replaces the value of an existing
key in place, otherwise appends the new key (insertion order preserved). -/
def dictSet {α : Type} : List (String × α) → String → α → List (String × α)
  | [], key, v => [(key, v)]
  | (k, w) :: rest, key, v =>
      if k = key then (key, v) :: rest else (k, w) :: dictSet rest key v

/-- Python `d[key] += n` for an int entry: raises KeyError when the key is
missing and TypeError when the stored value is not an int. -/
def dictAddInt (d : List (String × Val)) (key : String) (n : Int) :
    Except String (List (String × Val)) :=
  match dictGet d key with
  | some (Val.vInt m) => Except.ok (dictSet d key (Val.vInt (m + n)))
  | some _ => Except.error "TypeError"
  | none => Except.error "KeyError"

/-- Round half to even (Python `round`) of a rational to an integer. -/
def roundHalfEven (q : ℚ) : Int :=
  let f := ⌊q⌋
  let r := q - (f : ℚ)
  if r < 1 / 2 then f
  else if 1 / 2 < r then f + 1
  else if f % 2 = 0 then f else f + 1

/-- Python `round(q, 2)`. -/
def round2 (q : ℚ) : ℚ := (roundHalfEven (q * 100) : ℚ) / 100

/-- Python `str.lower()` on text (ASCII case folding). -/
def pyLower (t : List Char) : List Char := t.map Char.toLower

/-- Helper for `pySplit`: accumulates the current word in reverse. -/
def pySplitAux : List Char → List Char → List (List Char)
  | cur, [] => if cur.isEmpty then [] else [cur.reverse]
  | cur, c :: rest =>
      if c.isWhitespace then
        if cur.isEmpty then pySplitAux [] rest
        else cur.reverse :: pySplitAux [] rest
      else pySplitAux (c :: cur) rest

/-- Python `str.split()` with no argument: splits on runs of whitespace and
discards empty words. -/
def pySplit (t : List Char) : List (List Char) := pySplitAux [] t

/-- `len(report.split())` of evaluator.py. -/
def wordCount (report : List Char) : Nat := (pySplit report).length

/-- Helper for `countSub`: scan the text left to right; `skip` characters
are still to be jumped over after a match (a match consumes the whole
matched occurrence, making the count non-overlapping). -/
def countSubAux (sub : List Char) : Nat → List Char → Nat
  | _, [] => 0
  | Nat.succ k, _ :: rest => countSubAux sub k rest
  | 0, c :: rest =>
      if sub.isPrefixOf (c :: rest) then 1 + countSubAux sub (sub.length - 1) rest
      else countSubAux sub 0 rest

/-- Python `str.count(sub)`: number of non-overlapping occurrences, scanning
left to right (`s.count('')` is `len(s) + 1`). -/
def countSub (sub : List Char) (t : List Char) : Nat :=
  if sub.isEmpty then t.length + 1 else countSubAux sub 0 t

/-- Python slice `xs[-k:]` for an int `k` (note `xs[-0:]` is the whole
list, and a negative `k` drops from the front). -/
def pySliceFromNeg {α : Type} (xs : List α) (k : Int) : List α :=
  let i : Int := -k
  let start : Int :=
    if i < 0 then max ((xs.length : Int) + i) 0 else min i (xs.length : Int)
  xs.drop start.toNat

/-- The last `k` elements of a list (the whole list when it is shorter). -/
def lastN {α : Type} (k : Nat) (xs : List α) : List α := xs.drop (xs.length - k)

/-- Regex `\w` (ASCII): letters, digits, underscore. -/
def isWordChar (c : Char) : Bool := c.isAlphanum || c = '_'

/-- Matcher that accepts at the current position (end of a pattern). -/
def endPat : List Char → Bool := fun _ => true

/-- Match a literal, then continue with `k` after it. -/
def litThen (w : List Char) (k : List Char → Bool) (t : List Char) : Bool :=
  w.isPrefixOf t && k (t.drop w.length)

/-- Regex `\s+` followed by continuation `k`. -/
def wsPlusThen (k : List Char → Bool) : List Char → Bool
  | [] => false
  | c :: rest => c.isWhitespace && (k rest || wsPlusThen k rest)

/-- Regex `.*` (no newline) followed by continuation `k`. -/
def dotStarThen (k : List Char → Bool) : List Char → Bool
  | [] => k []
  | c :: rest => k (c :: rest) || (c != '\n' && dotStarThen k rest)

/-- `re.search`: try the anchored matcher `m` at every position. -/
def searchBy (m : List Char → Bool) : List Char → Bool
  | [] => m []
  | c :: rest => m (c :: rest) || searchBy m rest

/-- Regex `\bw\b:` — an occurrence of the word `w` preceded by the start of
the text or a non-word character and followed directly by a colon (the
trailing `\b` between a letter and `:` always holds).  The boolean argument
records whether the previous character was a word character. -/
def searchWordColon (w : List Char) : Bool → List Char → Bool
  | _, [] => false
  | prevWord, c :: rest =>
      (!prevWord && litThen w (litThen [':'] endPat) (c :: rest))
        || searchWordColon w (isWordChar c) rest

/-- Regex `(?i)a` for a literal `a`: substring search on lowercased text. -/
def lit (s : String) : List Char → Bool :=
  searchBy (litThen s.data endPat)

/-- Regex `(?i)a\s+b`. -/
def word2 (a b : String) : List Char → Bool :=
  searchBy (litThen a.data (wsPlusThen (litThen b.data endPat)))

/-- Regex `(?i)a\s+b\s+c`. -/
def word3 (a b c : String) : List Char → Bool :=
  searchBy (litThen a.data (wsPlusThen (litThen b.data (wsPlusThen (litThen c.data endPat)))))

/-- Regex `(?i)a\s+(b|c)`. -/
def word2alt (a b c : String) : List Char → Bool :=
  searchBy (litThen a.data (wsPlusThen
    (fun u => litThen b.data endPat u || litThen c.data endPat u)))

/-- Regex `(?i)a.*b`. -/
def wordDotStar (a b : String) : List Char → Bool :=
  searchBy (litThen a.data (dotStarThen (litThen b.data endPat)))

/-- Regex `(?i)\*\*w\*\*|\bw\b:` (the SWOT part patterns). -/
def boldOrColon (w : String) : List Char → Bool := fun t =>
  lit ("**" ++ w ++ "**") t || searchWordColon w.data false t

/-- The `required_sections` table of `evaluate_report` (name, pattern).
The `recommendations?` pattern matches exactly when the stem
`recommendation` occurs (the trailing `s` is optional). -/
def requiredSections : List (String × (List Char → Bool)) :=
  [("Executive Summary", word2 "executive" "summary"),
   ("Company Overview", word2 "company" "overview"),
   ("Competitive Analysis", word2 "competitive" "analysis"),
   ("SWOT Analysis", word2 "swot" "analysis"),
   ("Strengths", boldOrColon "strengths"),
   ("Weaknesses", boldOrColon "weaknesses"),
   ("Opportunities", boldOrColon "opportunities"),
   ("Threats", boldOrColon "threats"),
   ("Pricing", word2alt "pricing" "strategy" "analysis"),
   ("Recommendations", fun t => lit "recommendation" t || word2 "strategic" "recommendations" t),
   ("Conclusion", lit "conclusion")]

/-- The `comparison_sections` table of `evaluate_comparison`. -/
def comparisonSections : List (String × (List Char → Bool)) :=
  [("Market Position Comparison", word3 "market" "position" "comparison"),
   ("Product Comparison", wordDotStar "product" "comparison"),
   ("Competitive Advantages", word2 "competitive" "advantages"),
   ("Competitive Weaknesses", word2 "competitive" "weaknesses"),
   ("Pricing Comparison", wordDotStar "pricing" "comparison"),
   ("SWOT Comparison", wordDotStar "swot" "comparison"),
   ("Head-to-Head", lit "head-to-head"),
   ("Winner Analysis", word2 "winner" "analysis"),
   ("Final Verdict", word2 "final" "verdict")]

/-- The sections of a table whose pattern matches the (lowercased) text. -/
def sectionsFoundIn (table : List (String × (List Char → Bool))) (t : List Char) :
    List String :=
  (table.filter (fun p => p.2 t)).map (fun p => p.1)

/-- The sections of a table whose pattern does not match the text. -/
def sectionsMissingIn (table : List (String × (List Char → Bool))) (t : List Char) :
    List String :=
  (table.filter (fun p => !(p.2 t))).map (fun p => p.1)

/-- The `metrics` dict filled in by `evaluate_report`. -/
structure ReportMetrics where
  has_swot : Bool
  has_all_swot_parts : Bool
  has_recommendations : Bool
  has_conclusion : Bool
  adequate_length : Bool
  comprehensive_length : Bool
  bullet_points : Nat
  headers : Nat
deriving DecidableEq

/-- The evaluation dict returned by `evaluate_report`. -/
structure ReportEvaluation where
  timestamp : String
  company_name : Option String
  word_count : Nat
  char_count : Nat
  sections_found : List String
  sections_missing : List String
  completeness_score : ℚ
  metrics : ReportMetrics
  quality_score : Nat
  overall_score : ℚ
  recommendations : List String
deriving DecidableEq

/-- The quality-metric block of `evaluate_report` for a report and its
found-sections list. -/
def reportMetrics (report : List Char) (found : List String) : ReportMetrics :=
  { has_swot := found.contains "SWOT Analysis"
    has_all_swot_parts :=
      (["Strengths", "Weaknesses", "Opportunities", "Threats"] : List String).all
        (fun s => found.contains s)
    has_recommendations := found.contains "Recommendations"
    has_conclusion := found.contains "Conclusion"
    adequate_length := decide (wordCount report ≥ 1000)
    comprehensive_length := decide (wordCount report ≥ 3000)
    bullet_points := countSub ("- ").data report + countSub ("* ").data report
    headers := countSub ("#").data report }

/-- The quality-score accumulation of `evaluate_report` (word-count tier,
SWOT, structure, strategic elements), before the `min(·, 100)` clamp. -/
def qualityScoreOf (wc : Nat) (m : ReportMetrics) : Nat :=
  (if wc ≥ 5000 then 30 else if wc ≥ 3000 then 25
   else if wc ≥ 2000 then 20 else if wc ≥ 1000 then 15 else 10)
  + (if m.has_all_swot_parts then 25 else if m.has_swot then 15 else 0)
  + (if m.bullet_points ≥ 20 then 15 else if m.bullet_points ≥ 10 then 10 else 0)
  + (if m.headers ≥ 8 then 10 else if m.headers ≥ 5 then 5 else 0)
  + (if m.has_recommendations then 10 else 0)
  + (if m.has_conclusion then 10 else 0)

/-- The unrounded completeness score `(len(found) / len(required)) * 100`. -/
def completenessOf (report : List Char) : ℚ :=
  (((sectionsFoundIn requiredSections (pyLower report)).length : ℚ)
    / (requiredSections.length : ℚ)) * 100

/-- The metrics of `evaluate_report` for a report. -/
def reportMetricsOf (report : List Char) : ReportMetrics :=
  reportMetrics report (sectionsFoundIn requiredSections (pyLower report))

/-- `evaluation['quality_score'] = min(quality_score, 100)`. -/
def reportQualityOf (report : List Char) : Nat :=
  Nat.min (qualityScoreOf (wordCount report) (reportMetricsOf report)) 100

/-- `', '.join(xs)`. -/
def joinComma (xs : List String) : String := String.intercalate ", " xs

/-- The `recommendations` list built by `evaluate_report`. -/
def recsOf (wc : Nat) (m : ReportMetrics) (missing : List String) : List String :=
  (if !m.has_all_swot_parts then ["Ensure all SWOT components are present"] else [])
  ++ (if wc < 3000 then ["Consider adding more detailed analysis"] else [])
  ++ (if !m.has_recommendations then ["Add strategic recommendations section"] else [])
  ++ (if missing.length > 3 then
        ["Missing key sections: " ++ joinComma (missing.take 3)] else [])

/-- `AgentEvaluator.evaluate_report` (the returned evaluation dict; the
append to `evaluation_history` is `evaluate_report_method` below). -/
def evaluate_report (report : List Char) (company_name : Option String)
    (now : String) : ReportEvaluation :=
  { timestamp := now
    company_name := company_name
    word_count := wordCount report
    char_count := report.length
    sections_found := sectionsFoundIn requiredSections (pyLower report)
    sections_missing := sectionsMissingIn requiredSections (pyLower report)
    completeness_score := round2 (completenessOf report)
    metrics := reportMetricsOf report
    quality_score := reportQualityOf report
    overall_score :=
      round2 (round2 (completenessOf report) * (1 / 2)
        + ((reportQualityOf report : ℚ)) * (1 / 2))
    recommendations :=
      recsOf (wordCount report) (reportMetricsOf report)
        (sectionsMissingIn requiredSections (pyLower report)) }

/-- The `metrics` dict of `evaluate_comparison`. -/
structure ComparisonMetrics where
  all_companies_mentioned : Bool
  companies_mention_count : List (String × Nat)
  balanced_coverage : Bool
  adequate_length : Bool
  comprehensive : Bool
deriving DecidableEq

/-- The evaluation dict returned by `evaluate_comparison`. -/
structure ComparisonEvaluation where
  timestamp : String
  companies : List String
  num_companies : Nat
  word_count : Nat
  sections_found : List String
  metrics : ComparisonMetrics
  completeness_score : ℚ
  quality_score : Nat
  overall_score : ℚ
deriving DecidableEq

/-- The `companies_mentioned` dict: for each company, the number of
case-insensitive occurrences of its name in the report. -/
def mentionCounts (report : List Char) (companies : List String) :
    List (String × Nat) :=
  companies.foldl
    (fun d c => dictSet d c (countSub (pyLower c.data) (pyLower report))) []

/-- Python `max` over a list of ints; raises ValueError on an empty list. -/
def pyMaxNat : List Nat → Except String Nat
  | [] => Except.error "ValueError: max() arg is an empty sequence"
  | x :: xs => Except.ok (xs.foldl max x)

/-- Python `min` over a list of ints; raises ValueError on an empty list. -/
def pyMinNat : List Nat → Except String Nat
  | [] => Except.error "ValueError: min() arg is an empty sequence"
  | x :: xs => Except.ok (xs.foldl min x)

/-- Python true division; raises ZeroDivisionError on a zero divisor. -/
def pyDivQ (a b : ℚ) : Except String ℚ :=
  if b = 0 then Except.error "ZeroDivisionError" else Except.ok (a / b)

/-- The values of the `companies_mentioned` dict. -/
def mentionValues (report : List Char) (companies : List String) : List Nat :=
  (mentionCounts report companies).map (fun p => p.2)

/-- The `balanced_coverage` expression
`max(...) / min(...) < 2 if min(...) > 0 else False`: the condition
`min(...) > 0` is evaluated first and the division happens only when it
holds, so the division is guarded; `max`/`min` over empty values (an empty
companies list) raise ValueError. -/
def balancedCoverageOf (values : List Nat) : Except String Bool :=
  match pyMinNat values with
  | Except.error e => Except.error e
  | Except.ok minV =>
      if minV > 0 then
        match pyMaxNat values with
        | Except.error e => Except.error e
        | Except.ok maxV =>
            match pyDivQ (maxV : ℚ) (minV : ℚ) with
            | Except.error e => Except.error e
            | Except.ok q => Except.ok (decide (q < 2))
      else Except.ok false

/-- The `metrics` dict of `evaluate_comparison`, given the result of the
balanced-coverage expression. -/
def comparisonMetricsOf (report : List Char) (companies : List String)
    (balanced : Bool) : ComparisonMetrics :=
  { all_companies_mentioned := (mentionValues report companies).all (fun v => decide (v > 0))
    companies_mention_count := mentionCounts report companies
    balanced_coverage := balanced
    adequate_length := decide (wordCount report ≥ 2000)
    comprehensive := decide ((sectionsFoundIn comparisonSections (pyLower report)).length ≥ 7) }

/-- The unrounded comparison completeness `(len(found) / len(sections)) * 100`. -/
def comparisonCompletenessOf (report : List Char) : ℚ :=
  (((sectionsFoundIn comparisonSections (pyLower report)).length : ℚ)
    / (comparisonSections.length : ℚ)) * 100

/-- The comparison quality score accumulation. -/
def comparisonQualityOf (m : ComparisonMetrics) : Nat :=
  (if m.all_companies_mentioned then 30 else 0)
  + (if m.balanced_coverage then 20 else 0)
  + (if m.adequate_length then 25 else 0)
  + (if m.comprehensive then 25 else 0)

/-- `AgentEvaluator.evaluate_comparison`: the only fallible part is the
balanced-coverage expression (`max`/`min`/division); everything else is a
pure function of the report and the companies. -/
def evaluate_comparison (report : List Char) (companies : List String)
    (now : String) : Except String ComparisonEvaluation :=
  (balancedCoverageOf (mentionValues report companies)).map (fun balanced =>
    { timestamp := now
      companies := companies
      num_companies := companies.length
      word_count := wordCount report
      sections_found := sectionsFoundIn comparisonSections (pyLower report)
      metrics := comparisonMetricsOf report companies balanced
      completeness_score := round2 (comparisonCompletenessOf report)
      quality_score := comparisonQualityOf (comparisonMetricsOf report companies balanced)
      overall_score := round2 ((comparisonCompletenessOf report
        + (comparisonQualityOf (comparisonMetricsOf report companies balanced) : ℚ)) / 2) })

/-- One entry of the `charts` dict of `evaluate_charts` (`fileExists`
models the Python key `exists`). -/
structure ChartRecord where
  type : String
  path : String
  fileExists : Bool
  size : Nat
deriving DecidableEq

/-- The evaluation dict returned by `evaluate_charts`. -/
structure ChartsEvaluation where
  timestamp : String
  charts_generated : Nat
  expected_charts : Nat
  charts : List (String × ChartRecord)
  all_charts_present : Bool
  score : ℚ
deriving DecidableEq

/-- One chart entry: `os.path.exists(path) if path else False` and
`os.path.getsize(path) if path and os.path.exists(path) else 0`, over an
explicit file system mapping existing paths to byte sizes. -/
def chartRecordOf (fs : String → Option Nat) (chart_type path : String) :
    ChartRecord :=
  { type := chart_type
    path := path
    fileExists := if path ≠ "" then (fs path).isSome else false
    size :=
      if path ≠ "" then
        (match fs path with
         | some sz => sz
         | none => 0)
      else 0 }

/-- `expected_types = ['radar', 'bar', 'heatmap']`. -/
def expectedChartTypes : List String := ["radar", "bar", "heatmap"]

/-- `AgentEvaluator.evaluate_charts` over an explicit read-only file
system; the file system is returned unchanged (the method only reads). -/
def evaluate_charts (fs : String → Option Nat)
    (chart_paths : List (String × String)) (now : String) :
    ChartsEvaluation × (String → Option Nat) :=
  ({ timestamp := now
     charts_generated := chart_paths.length
     expected_charts := 3
     charts := chart_paths.foldl
       (fun d p => dictSet d p.1 (chartRecordOf fs p.1 p.2)) []
     all_charts_present :=
       expectedChartTypes.all (fun t => chart_paths.any (fun p => p.1 == t))
     score := ((chart_paths.length : ℚ) / 3) * 100 }, fs)

/-- The result of `get_evaluation_summary`: either the empty-history
sentinel `{'message': 'No evaluations yet'}` or the statistics dict. -/
inductive EvalSummary where
  | noEvaluations
  | stats (total_evaluations : Nat) (average_score highest_score lowest_score : ℚ)
      (evaluations : List ReportEvaluation)
deriving DecidableEq

/-- `AgentEvaluator.get_evaluation_summary` over the in-memory
`evaluation_history`. -/
def get_evaluation_summary : List ReportEvaluation → EvalSummary
  | [] => EvalSummary.noEvaluations
  | e :: rest =>
      let scores := (e :: rest).map (fun x => x.overall_score)
      EvalSummary.stats (e :: rest).length
        (round2 (scores.sum / (scores.length : ℚ)))
        ((rest.map (fun x => x.overall_score)).foldl max e.overall_score)
        ((rest.map (fun x => x.overall_score)).foldl min e.overall_score)
        (e :: rest)

/-- `evaluate_report` as a method: returns the evaluation and appends it to
`self.evaluation_history`. -/
def evaluate_report_method (history : List ReportEvaluation) (report : List Char)
    (company_name : Option String) (now : String) :
    ReportEvaluation × List ReportEvaluation :=
  let ev := evaluate_report report company_name now
  (ev, history ++ [ev])

/-- `evaluate_comparison` as a method: it never touches
`evaluation_history`, which is returned unchanged. -/
def evaluate_comparison_method (history : List ReportEvaluation)
    (report : List Char) (companies : List String) (now : String) :
    Except String ComparisonEvaluation × List ReportEvaluation :=
  (evaluate_comparison report companies now, history)

/-- `evaluate_charts` as a method: it never touches `evaluation_history`,
which is returned unchanged. -/
def evaluate_charts_method (history : List ReportEvaluation)
    (fs : String → Option Nat) (chart_paths : List (String × String))
    (now : String) :
    ChartsEvaluation × (String → Option Nat) × List ReportEvaluation :=
  let r := evaluate_charts fs chart_paths now
  (r.1, r.2, history)

/-- One message of `conversation_history` (`metadata or {}` applied). -/
structure Message where
  role : String
  content : String
  timestamp : String
  metadata : List (String × Val)
deriving DecidableEq

/-- The state of `MemoryManager` (memory.py). -/
structure MemoryManager where
  session_id : Val
  conversation_history : List Message
  max_history_length : Int
  session_data : List (String × Val)
deriving DecidableEq

/-- `MemoryManager.__init__`: `nowFmt` stands for
`datetime.now().strftime('%Y%m%d_%H%M%S')` and `nowIso` for
`datetime.now().isoformat()`. -/
def initManager (session_id : Option String) (max_history_length : Int)
    (nowFmt nowIso : String) : MemoryManager :=
  let sid : Val :=
    match session_id with
    | some s => Val.vStr s
    | none => Val.vStr ("session_" ++ nowFmt)
  { session_id := sid
    conversation_history := []
    max_history_length := max_history_length
    session_data :=
      [("session_id", sid),
       ("created_at", Val.vStr nowIso),
       ("last_updated", Val.vStr nowIso),
       ("analysis_count", Val.vInt 0),
       ("total_tokens_used", Val.vInt 0)] }

/-- `MemoryManager.add_message`: appends the message, trims the history via
the Python slice `history[-max_history_length:]` when its length exceeds
`max_history_length`, and touches `last_updated`. -/
def add_message (m : MemoryManager) (role content : String)
    (metadata : Option (List (String × Val))) (now : String) : MemoryManager :=
  let message : Message :=
    { role := role, content := content, timestamp := now,
      metadata := metadata.getD [] }
  let h := m.conversation_history ++ [message]
  let h :=
    if (h.length : Int) > m.max_history_length then pySliceFromNeg h m.max_history_length
    else h
  { m with conversation_history := h,
           session_data := dictSet m.session_data "last_updated" (Val.vStr now) }

/-- `MemoryManager.store_analysis_result`. -/
def store_analysis_result (m : MemoryManager) (key : String) (value : Val)
    (now : String) : MemoryManager :=
  { m with session_data :=
      dictSet (dictSet m.session_data key value) "last_updated" (Val.vStr now) }

/-- `MemoryManager.increment_analysis_count`. -/
def increment_analysis_count (m : MemoryManager) (now : String) :
    Except String MemoryManager :=
  (dictAddInt m.session_data "analysis_count" 1).map
    (fun d => { m with session_data := dictSet d "last_updated" (Val.vStr now) })

/-- `MemoryManager.add_tokens_used` (note: no `last_updated` update). -/
def add_tokens_used (m : MemoryManager) (tokens : Int) :
    Except String MemoryManager :=
  (dictAddInt m.session_data "total_tokens_used" tokens).map
    (fun d => { m with session_data := d })

/-- `MemoryManager.clear_history`. -/
def clear_history (m : MemoryManager) : MemoryManager :=
  { m with conversation_history := [] }

/-- The JSON payload written by `save_to_file`. -/
structure SavedData where
  session_data : List (String × Val)
  conversation_history : List Message
deriving DecidableEq

/-- The session file system: a map from paths to saved session payloads
(the JSON encode/decode pair of `json.dump`/`json.load` is abstracted as
the identity on the structured payload). -/
abbrev SessFS := String → Option SavedData

/-- `MemoryManager.save_to_file` with an explicit file path. -/
def save_to_file (m : MemoryManager) (fs : SessFS) (filepath : String) : SessFS :=
  fun p =>
    if p = filepath then
      some { session_data := m.session_data,
             conversation_history := m.conversation_history }
    else fs p

/-- `MemoryManager.load_from_file`: raises when the file is missing or the
loaded `session_data` has no `session_id` key. -/
def load_from_file (m : MemoryManager) (fs : SessFS) (filepath : String) :
    Except String MemoryManager :=
  match fs filepath with
  | none => Except.error "FileNotFoundError"
  | some data =>
      match dictGet data.session_data "session_id" with
      | none => Except.error "KeyError"
      | some sid =>
          Except.ok { m with session_data := data.session_data,
                             conversation_history := data.conversation_history,
                             session_id := sid }

/-- The mutating operations of `MemoryManager`, with every `datetime.now()`
reading passed explicitly. -/
inductive MemOp where
  | addMessage (role content : String) (metadata : Option (List (String × Val)))
      (now : String)
  | storeAnalysisResult (key : String) (value : Val) (now : String)
  | incrementAnalysisCount (now : String)
  | addTokensUsed (tokens : Int)
  | clearHistory
  | saveToFile (path : String)
  | loadFromFile (path : String)
  | resetSession (nowFmt nowIso : String)

/-- One step of a `MemoryManager` session (`reset_session` is
`self.__init__()` with the default arguments). -/
def memStep (s : MemoryManager × SessFS) (op : MemOp) :
    Except String (MemoryManager × SessFS) :=
  match op with
  | MemOp.addMessage r c md now => Except.ok (add_message s.1 r c md now, s.2)
  | MemOp.storeAnalysisResult k v now => Except.ok (store_analysis_result s.1 k v now, s.2)
  | MemOp.incrementAnalysisCount now =>
      (increment_analysis_count s.1 now).map (fun m => (m, s.2))
  | MemOp.addTokensUsed n => (add_tokens_used s.1 n).map (fun m => (m, s.2))
  | MemOp.clearHistory => Except.ok (clear_history s.1, s.2)
  | MemOp.saveToFile p => Except.ok (s.1, save_to_file s.1 s.2 p)
  | MemOp.loadFromFile p => (load_from_file s.1 s.2 p).map (fun m => (m, s.2))
  | MemOp.resetSession nf ni => Except.ok (initManager none 50 nf ni, s.2)

/-- The operations under which `analysis_count` cannot decrease:
everything except `reset_session`, `load_from_file`, and a
`store_analysis_result` that overwrites the `analysis_count` key itself. -/
def countPreserving : MemOp → Prop
  | MemOp.resetSession _ _ => False
  | MemOp.loadFromFile _ => False
  | MemOp.storeAnalysisResult key _ _ => key ≠ "analysis_count"
  | _ => True

/-- The input of one `add_message` call (`now` is the timestamp read). -/
structure MsgIn where
  role : String
  content : String
  metadata : Option (List (String × Val))
  now : String

/-- The message record `add_message` builds from its input. -/
def mkMessage (a : MsgIn) : Message :=
  { role := a.role, content := a.content, timestamp := a.now,
    metadata := a.metadata.getD [] }

/-- A sequence of `add_message` calls. -/
def runAddMessages (m : MemoryManager) (msgs : List MsgIn) : MemoryManager :=
  msgs.foldl (fun s a => add_message s a.role a.content a.metadata a.now) m

/-- The head of a concrete full report: all eleven required-section
patterns, 8 header characters, and 20 bullet markers (it ends with a
newline, so appended filler starts a fresh word). -/
def c6Header : String :=
  "executive summary\ncompany overview\ncompetitive analysis\nswot analysis\n"
    ++ "strengths: s\nweaknesses: w\nopportunities: o\nthreats: t\n"
    ++ "pricing strategy\nrecommendations\nconclusion\n########\n"
    ++ "- x\n- x\n- x\n- x\n- x\n- x\n- x\n- x\n- x\n- x\n"
    ++ "- x\n- x\n- x\n- x\n- x\n- x\n- x\n- x\n- x\n- x\n"

/-- `n` copies of the two-character word-filler `" a"`. -/
def fillerWords (n : Nat) : List Char := (List.replicate n ([' ', 'a'])).flatten

/-- A concrete report that matches all eleven required-section patterns and
has at least 5000 words, 20 bullet markers, and 8 header characters. -/
def c6Report : List Char := c6Header.data ++ fillerWords 5000

/-! ### Dictionary lemmas -/

theorem dictGet_set_self {α : Type} (d : List (String × α)) (k : String) (v : α) :
    dictGet (dictSet d k v) k = some v := by
  induction d with
  | nil => simp [dictGet, dictSet]
  | cons p rest ih =>
      obtain ⟨k', v'⟩ := p
      by_cases h : k' = k
      · simp [dictGet, dictSet, h]
      · simp [dictGet, dictSet, h, ih]

theorem dictGet_set_ne {α : Type} (d : List (String × α)) (k k' : String) (v : α)
    (h : k' ≠ k) : dictGet (dictSet d k v) k' = dictGet d k' := by
  have h2 : k ≠ k' := Ne.symm h
  induction d with
  | nil => simp [dictGet, dictSet, h2]
  | cons p rest ih =>
      obtain ⟨k0, v0⟩ := p
      by_cases h0 : k0 = k
      · subst h0
        simp [dictGet, dictSet, h2]
      · simp only [dictSet, if_neg h0, dictGet]
        by_cases h1 : k0 = k'
        · simp [h1]
        · simp [h1, ih]

theorem mem_of_dictGet_eq_some {α : Type} {d : List (String × α)} {k : String}
    {v : α} (h : dictGet d k = some v) : (k, v) ∈ d := by
  induction d with
  | nil => simp [dictGet] at h
  | cons p rest ih =>
      obtain ⟨k0, v0⟩ := p
      by_cases h0 : k0 = k
      · subst h0
        simp [dictGet] at h
        simp [h]
      · simp [dictGet, h0] at h
        exact List.mem_cons_of_mem _ (ih h)

/-! ### Suffix lemmas for the history cap -/

theorem lastN_length_le {α : Type} (k : Nat) (xs : List α) : (lastN k xs).length ≤ k := by
  simp only [lastN, List.length_drop]
  omega

theorem lastN_append_lastN {α : Type} (k : Nat) (xs ys : List α) :
    lastN k (lastN k xs ++ ys) = lastN k (xs ++ ys) := by
  unfold lastN
  have hd : xs.length - k ≤ xs.length := Nat.sub_le _ _
  rw [← List.drop_append_of_le_length hd, List.drop_drop]
  congr 1
  simp only [List.length_drop, List.length_append]
  omega

/-- With a positive cap, the trim step of `add_message` keeps exactly the
last `max_history_length` entries. -/
theorem trim_eq_lastN {α : Type} (h : List α) (mx : Int) (hmax : 1 ≤ mx) :
    (if (h.length : Int) > mx then pySliceFromNeg h mx else h) = lastN mx.toNat h := by
  by_cases hc : (h.length : Int) > mx
  · rw [if_pos hc]
    unfold pySliceFromNeg lastN
    simp only []
    have hneg : (-mx) < 0 := by omega
    rw [if_pos hneg]
    congr 1
    rw [max_eq_left (by omega)]
    omega
  · rw [if_neg hc]
    unfold lastN
    have h0 : h.length - mx.toNat = 0 := by omega
    rw [h0, List.drop_zero]

theorem add_message_history (m : MemoryManager) (r c : String)
    (md : Option (List (String × Val))) (now : String)
    (hmax : 1 ≤ m.max_history_length) :
    (add_message m r c md now).conversation_history
      = lastN m.max_history_length.toNat
          (m.conversation_history
            ++ [{ role := r, content := c, timestamp := now,
                  metadata := md.getD [] }]) := by
  have := trim_eq_lastN
    (m.conversation_history
      ++ [({ role := r, content := c, timestamp := now,
             metadata := md.getD [] } : Message)])
    m.max_history_length hmax
  simpa [add_message] using this

theorem runAddMessages_history_eq :
    ∀ (msgs : List MsgIn) (m : MemoryManager) (acc : List Message),
      1 ≤ m.max_history_length →
      m.conversation_history = lastN m.max_history_length.toNat acc →
      (runAddMessages m msgs).conversation_history
          = lastN m.max_history_length.toNat (acc ++ msgs.map mkMessage)
        ∧ (runAddMessages m msgs).max_history_length = m.max_history_length := by
  intro msgs
  induction msgs with
  | nil =>
      intro m acc h1 h2
      exact ⟨by simpa [runAddMessages] using h2, rfl⟩
  | cons a rest ih =>
      intro m acc h1 h2
      have hmax' : (add_message m a.role a.content a.metadata a.now).max_history_length
          = m.max_history_length := rfl
      have hstep : (add_message m a.role a.content a.metadata a.now).conversation_history
          = lastN m.max_history_length.toNat (acc ++ [mkMessage a]) := by
        rw [add_message_history m _ _ _ _ h1, h2, mkMessage]
        exact lastN_append_lastN _ _ _
      obtain ⟨ha, hb⟩ := ih (add_message m a.role a.content a.metadata a.now)
        (acc ++ [mkMessage a]) (by rw [hmax']; exact h1) (by rw [hmax']; exact hstep)
      have hrun : runAddMessages m (a :: rest)
          = runAddMessages (add_message m a.role a.content a.metadata a.now) rest := rfl
      refine ⟨?_, by rw [hrun, hb, hmax']⟩
      rw [hrun, ha, hmax']
      simp [List.append_assoc]

/-- C1 (amended: the cap must be positive; `max_history_length = 0` is the
counterexample below): for every positive `max_history_length` and every
sequence of `add_message` calls starting from a fresh manager, the stored
`conversation_history` is exactly the suffix of the most recently added
messages in insertion order, and its length never exceeds the cap. -/
theorem c1_add_message_caps_history (maxLen : Int) (sid : Option String)
    (nowFmt nowIso : String) (msgs : List MsgIn) (hmax : 1 ≤ maxLen) :
    (runAddMessages (initManager sid maxLen nowFmt nowIso) msgs).conversation_history
        = lastN maxLen.toNat (msgs.map mkMessage)
      ∧ ((runAddMessages (initManager sid maxLen nowFmt nowIso) msgs).conversation_history.length : Int)
          ≤ maxLen := by
  have h0 : (initManager sid maxLen nowFmt nowIso).max_history_length = maxLen := rfl
  obtain ⟨ha, _⟩ := runAddMessages_history_eq msgs (initManager sid maxLen nowFmt nowIso) []
    (by rw [h0]; exact hmax) (by simp [initManager, lastN])
  rw [h0] at ha
  simp only [List.nil_append] at ha
  refine ⟨ha, ?_⟩
  rw [ha]
  have hle := lastN_length_le maxLen.toNat (msgs.map mkMessage)
  omega

/-- Witness for C1: cap 2, three messages; the history is the last two. -/
theorem c1_add_message_caps_history_witness :
    (1 : Int) ≤ 2 ∧
    ((runAddMessages (initManager none 2 "20250101_000000" "t0")
        [{ role := "user", content := "a", metadata := none, now := "t1" },
         { role := "user", content := "b", metadata := none, now := "t2" },
         { role := "user", content := "c", metadata := none, now := "t3" }]).conversation_history
        = lastN (2 : Int).toNat
            (([{ role := "user", content := "a", metadata := none, now := "t1" },
               { role := "user", content := "b", metadata := none, now := "t2" },
               { role := "user", content := "c", metadata := none, now := "t3" }] : List MsgIn).map mkMessage)
      ∧ (((runAddMessages (initManager none 2 "20250101_000000" "t0")
          [{ role := "user", content := "a", metadata := none, now := "t1" },
           { role := "user", content := "b", metadata := none, now := "t2" },
           { role := "user", content := "c", metadata := none, now := "t3" }]).conversation_history.length : Int)
          ≤ 2)) :=
  ⟨by decide,
   c1_add_message_caps_history 2 none "20250101_000000" "t0"
     [{ role := "user", content := "a", metadata := none, now := "t1" },
      { role := "user", content := "b", metadata := none, now := "t2" },
      { role := "user", content := "c", metadata := none, now := "t3" }] (by decide)⟩

/-- Counterexample to C1 as stated: with configured `max_history_length = 0`
one `add_message` call leaves one stored message (`history[-0:]` is the
whole list in Python), so the history length exceeds the cap. -/
theorem c1_counterexample :
    ¬ (((add_message (initManager none 0 "f" "i") "user" "hello" none "t").conversation_history.length : Int)
        ≤ (initManager none 0 "f" "i").max_history_length) := by
  decide

/-! ### C2: save/load round trip -/

/-- C2: `save_to_file` followed by `load_from_file` on any other manager
reproduces the saved `session_data` and `conversation_history` exactly
(the saved bag must contain the `session_id` key, which every manager
built by `__init__` has). -/
theorem c2_save_load_roundtrip (m m2 : MemoryManager) (fs : SessFS) (path : String)
    (sid : Val) (h : dictGet m.session_data "session_id" = some sid) :
    ∃ m3, load_from_file m2 (save_to_file m fs path) path = Except.ok m3
      ∧ m3.session_data = m.session_data
      ∧ m3.conversation_history = m.conversation_history := by
  refine ⟨{ m2 with
              session_data := m.session_data
              conversation_history := m.conversation_history
              session_id := sid }, ?_, rfl, rfl⟩
  have hfs : save_to_file m fs path path
      = some { session_data := m.session_data,
               conversation_history := m.conversation_history } := by
    simp [save_to_file]
  unfold load_from_file
  rw [hfs]
  simp [h]

/-- Witness for C2 at a concrete manager, fresh manager, and path. -/
theorem c2_save_load_roundtrip_witness :
    dictGet (initManager (some "s1") 50 "f" "i").session_data "session_id"
        = some (Val.vStr "s1")
    ∧ (∃ m3, load_from_file (initManager none 50 "g" "j")
          (save_to_file (initManager (some "s1") 50 "f" "i") (fun _ => none) "p") "p"
          = Except.ok m3
        ∧ m3.session_data = (initManager (some "s1") 50 "f" "i").session_data
        ∧ m3.conversation_history
            = (initManager (some "s1") 50 "f" "i").conversation_history) :=
  ⟨by decide,
   c2_save_load_roundtrip (initManager (some "s1") 50 "f" "i")
     (initManager none 50 "g" "j") (fun _ => none) "p" (Val.vStr "s1") (by decide)⟩

/-! ### C3: monotonicity of analysis_count -/

/-- C3 (amended: excluding `reset_session`, `load_from_file`, and a
`store_analysis_result` on the `analysis_count` key itself, all of which
can lower the counter): across every other single operation that
succeeds, `session_data['analysis_count']` never decreases. -/
theorem c3_analysis_count_monotone (s : MemoryManager × SessFS) (op : MemOp)
    (s' : MemoryManager × SessFS) (n : Int)
    (hop : countPreserving op)
    (hstep : memStep s op = Except.ok s')
    (hcount : dictGet s.1.session_data "analysis_count" = some (Val.vInt n)) :
    ∃ n', dictGet s'.1.session_data "analysis_count" = some (Val.vInt n') ∧ n ≤ n' := by
  cases op with
  | addMessage r c md now =>
      simp only [memStep, Except.ok.injEq] at hstep
      refine ⟨n, ?_, le_refl n⟩
      rw [← hstep]
      have hsd : (add_message s.1 r c md now).session_data
          = dictSet s.1.session_data "last_updated" (Val.vStr now) := rfl
      rw [hsd, dictGet_set_ne _ _ _ _ (by decide)]
      exact hcount
  | storeAnalysisResult key v now =>
      have hk : key ≠ "analysis_count" := hop
      simp only [memStep, Except.ok.injEq] at hstep
      refine ⟨n, ?_, le_refl n⟩
      rw [← hstep]
      have hsd : (store_analysis_result s.1 key v now).session_data
          = dictSet (dictSet s.1.session_data key v) "last_updated" (Val.vStr now) := rfl
      rw [hsd, dictGet_set_ne _ _ _ _ (by decide),
          dictGet_set_ne _ _ _ _ (fun hh => hk hh.symm)]
      exact hcount
  | incrementAnalysisCount now =>
      unfold memStep increment_analysis_count dictAddInt at hstep
      rw [hcount] at hstep
      simp only [Except.map, Except.ok.injEq] at hstep
      refine ⟨n + 1, ?_, by omega⟩
      rw [← hstep]
      show dictGet
        (dictSet (dictSet s.1.session_data "analysis_count" (Val.vInt (n + 1)))
          "last_updated" (Val.vStr now)) "analysis_count" = some (Val.vInt (n + 1))
      rw [dictGet_set_ne _ _ _ _ (by decide), dictGet_set_self]
  | addTokensUsed t =>
      unfold memStep add_tokens_used dictAddInt at hstep
      cases hl : dictGet s.1.session_data "total_tokens_used" with
      | none => rw [hl] at hstep; exact absurd hstep (by simp [Except.map])
      | some v =>
          cases v with
          | vInt k =>
              rw [hl] at hstep
              simp only [Except.map, Except.ok.injEq] at hstep
              refine ⟨n, ?_, le_refl n⟩
              rw [← hstep]
              show dictGet
                (dictSet s.1.session_data "total_tokens_used" (Val.vInt (k + t)))
                "analysis_count" = some (Val.vInt n)
              rw [dictGet_set_ne _ _ _ _ (by decide)]
              exact hcount
          | vStr w => rw [hl] at hstep; exact absurd hstep (by simp [Except.map])
          | vBool b => rw [hl] at hstep; exact absurd hstep (by simp [Except.map])
  | clearHistory =>
      simp only [memStep, Except.ok.injEq] at hstep
      refine ⟨n, ?_, le_refl n⟩
      rw [← hstep]
      exact hcount
  | saveToFile p =>
      simp only [memStep, Except.ok.injEq] at hstep
      refine ⟨n, ?_, le_refl n⟩
      rw [← hstep]
      exact hcount
  | loadFromFile p => exact hop.elim
  | resetSession nf ni => exact hop.elim

/-- Witness for C3 at a concrete state and operation
(`increment_analysis_count` on a fresh manager). -/
theorem c3_analysis_count_monotone_witness :
    countPreserving (MemOp.incrementAnalysisCount "t")
    ∧ (∃ n', dictGet (MemoryManager.mk (Val.vStr "session_f") [] 50
            [("session_id", Val.vStr "session_f"),
             ("created_at", Val.vStr "i"),
             ("last_updated", Val.vStr "t"),
             ("analysis_count", Val.vInt 1),
             ("total_tokens_used", Val.vInt 0)]).session_data
          "analysis_count" = some (Val.vInt n') ∧ (0 : Int) ≤ n') :=
  ⟨trivial,
   c3_analysis_count_monotone (initManager none 50 "f" "i", fun _ => none)
     (MemOp.incrementAnalysisCount "t")
     (MemoryManager.mk (Val.vStr "session_f") [] 50
        [("session_id", Val.vStr "session_f"),
         ("created_at", Val.vStr "i"),
         ("last_updated", Val.vStr "t"),
         ("analysis_count", Val.vInt 1),
         ("total_tokens_used", Val.vInt 0)], fun _ => none)
     0 trivial rfl rfl⟩

/-- Counterexample to C3 as stated: `reset_session` after one
`increment_analysis_count` drops `analysis_count` from 1 back to 0, so the
counter decreases across a single operation. -/
theorem c3_counterexample :
    ((memStep (initManager none 50 "f" "i", fun _ => none)
        (MemOp.incrementAnalysisCount "t1")).map
      (fun s1 => (dictGet s1.1.session_data "analysis_count",
        (memStep s1 (MemOp.resetSession "f2" "i2")).map
          (fun s2 => dictGet s2.1.session_data "analysis_count"))))
      = Except.ok (some (Val.vInt 1), Except.ok (some (Val.vInt 0)))
    ∧ ¬ ((1 : Int) ≤ 0) :=
  ⟨rfl, by decide⟩

/-! ### C9: frame of add_tokens_used -/

/-- C9: `add_tokens_used` only adds to `session_data['total_tokens_used']`;
it does not touch `last_updated` (or any other key), the history, the
session id, or the cap — unlike `increment_analysis_count`,
`add_message`, and `store_analysis_result`, which all stamp
`last_updated` with the current time. -/
theorem c9_add_tokens_frame (m : MemoryManager) (tokens k : Int)
    (h : dictGet m.session_data "total_tokens_used" = some (Val.vInt k)) :
    ∃ m', add_tokens_used m tokens = Except.ok m'
      ∧ dictGet m'.session_data "total_tokens_used" = some (Val.vInt (k + tokens))
      ∧ (∀ key, key ≠ "total_tokens_used" →
          dictGet m'.session_data key = dictGet m.session_data key)
      ∧ dictGet m'.session_data "last_updated" = dictGet m.session_data "last_updated"
      ∧ m'.conversation_history = m.conversation_history
      ∧ m'.session_id = m.session_id
      ∧ m'.max_history_length = m.max_history_length
      ∧ (∀ now c, dictGet m.session_data "analysis_count" = some (Val.vInt c) →
          ∃ m'', increment_analysis_count m now = Except.ok m''
            ∧ dictGet m''.session_data "last_updated" = some (Val.vStr now))
      ∧ (∀ role content md now,
          dictGet (add_message m role content md now).session_data "last_updated"
            = some (Val.vStr now))
      ∧ (∀ key v now,
          dictGet (store_analysis_result m key v now).session_data "last_updated"
            = some (Val.vStr now)) := by
  refine ⟨{ m with session_data := dictSet m.session_data "total_tokens_used" (Val.vInt (k + tokens)) },
    ?_, dictGet_set_self _ _ _, ?_, dictGet_set_ne _ _ _ _ (by decide),
    rfl, rfl, rfl, ?_, ?_, ?_⟩
  · unfold add_tokens_used dictAddInt
    rw [h]
    rfl
  · intro key hk
    exact dictGet_set_ne _ _ _ _ hk
  · intro now c hc
    refine ⟨{ m with session_data := dictSet (dictSet m.session_data "analysis_count" (Val.vInt (c + 1))) "last_updated" (Val.vStr now) },
      ?_, dictGet_set_self _ _ _⟩
    unfold increment_analysis_count dictAddInt
    rw [hc]
    rfl
  · intro role content md now
    exact dictGet_set_self _ _ _
  · intro key v now
    exact dictGet_set_self _ _ _

/-- Witness for C9 at a fresh manager and 1500 tokens. -/
theorem c9_add_tokens_frame_witness :
    dictGet (initManager none 50 "f" "i").session_data "total_tokens_used"
        = some (Val.vInt 0)
    ∧ (∃ m', add_tokens_used (initManager none 50 "f" "i") 1500 = Except.ok m'
        ∧ dictGet m'.session_data "total_tokens_used" = some (Val.vInt (0 + 1500))
        ∧ (∀ key, key ≠ "total_tokens_used" →
            dictGet m'.session_data key
              = dictGet (initManager none 50 "f" "i").session_data key)
        ∧ dictGet m'.session_data "last_updated"
            = dictGet (initManager none 50 "f" "i").session_data "last_updated"
        ∧ m'.conversation_history = (initManager none 50 "f" "i").conversation_history
        ∧ m'.session_id = (initManager none 50 "f" "i").session_id
        ∧ m'.max_history_length = (initManager none 50 "f" "i").max_history_length
        ∧ (∀ now c, dictGet (initManager none 50 "f" "i").session_data "analysis_count"
              = some (Val.vInt c) →
            ∃ m'', increment_analysis_count (initManager none 50 "f" "i") now
                = Except.ok m''
              ∧ dictGet m''.session_data "last_updated" = some (Val.vStr now))
        ∧ (∀ role content md now,
            dictGet (add_message (initManager none 50 "f" "i") role content md now).session_data
              "last_updated" = some (Val.vStr now))
        ∧ (∀ key v now,
            dictGet (store_analysis_result (initManager none 50 "f" "i") key v now).session_data
              "last_updated" = some (Val.vStr now))) :=
  ⟨by decide, c9_add_tokens_frame (initManager none 50 "f" "i") 1500 0 (by decide)⟩

/-! ### Fold max/min lemmas (Python max/min over a nonempty list) -/

theorem le_foldl_max {α : Type} [LinearOrder α] :
    ∀ (xs : List α) (x : α), x ≤ xs.foldl max x ∧ ∀ a ∈ xs, a ≤ xs.foldl max x := by
  intro xs
  induction xs with
  | nil => intro x; exact ⟨le_refl x, by simp⟩
  | cons y ys ih =>
      intro x
      simp only [List.foldl_cons]
      refine ⟨le_trans (le_max_left x y) (ih (max x y)).1, ?_⟩
      intro a ha
      rcases List.mem_cons.mp ha with h1 | h1
      · subst h1
        exact le_trans (le_max_right x a) (ih (max x a)).1
      · exact (ih (max x y)).2 a h1

theorem foldl_max_mem {α : Type} [LinearOrder α] :
    ∀ (xs : List α) (x : α), xs.foldl max x = x ∨ xs.foldl max x ∈ xs := by
  intro xs
  induction xs with
  | nil => intro x; exact Or.inl rfl
  | cons y ys ih =>
      intro x
      simp only [List.foldl_cons]
      rcases ih (max x y) with h | h
      · rcases max_choice x y with h2 | h2
        · exact Or.inl (by rw [h, h2])
        · exact Or.inr (by rw [h, h2]; exact List.mem_cons_self y ys)
      · exact Or.inr (List.mem_cons_of_mem _ h)

theorem foldl_min_le {α : Type} [LinearOrder α] :
    ∀ (xs : List α) (x : α), xs.foldl min x ≤ x ∧ ∀ a ∈ xs, xs.foldl min x ≤ a := by
  intro xs
  induction xs with
  | nil => intro x; exact ⟨le_refl x, by simp⟩
  | cons y ys ih =>
      intro x
      simp only [List.foldl_cons]
      refine ⟨le_trans (ih (min x y)).1 (min_le_left x y), ?_⟩
      intro a ha
      rcases List.mem_cons.mp ha with h1 | h1
      · subst h1
        exact le_trans (ih (min x a)).1 (min_le_right x a)
      · exact (ih (min x y)).2 a h1

theorem foldl_min_mem {α : Type} [LinearOrder α] :
    ∀ (xs : List α) (x : α), xs.foldl min x = x ∨ xs.foldl min x ∈ xs := by
  intro xs
  induction xs with
  | nil => intro x; exact Or.inl rfl
  | cons y ys ih =>
      intro x
      simp only [List.foldl_cons]
      rcases ih (min x y) with h | h
      · rcases min_choice x y with h2 | h2
        · exact Or.inl (by rw [h, h2])
        · exact Or.inr (by rw [h, h2]; exact List.mem_cons_self y ys)
      · exact Or.inr (List.mem_cons_of_mem _ h)

/-! ### Rounding lemmas -/

theorem roundHalfEven_intCast (m : ℤ) : roundHalfEven ((m : ℚ)) = m := by
  unfold roundHalfEven
  simp only [Int.floor_intCast, sub_self]
  norm_num

theorem round2_natCast (n : ℕ) : round2 ((n : ℚ)) = n := by
  unfold round2
  rw [show ((n : ℚ) * 100) = (((n * 100 : ℕ) : ℤ) : ℚ) by push_cast; ring,
      roundHalfEven_intCast]
  push_cast
  field_simp

theorem round2_zero : round2 0 = 0 := by
  have h := round2_natCast 0
  simpa using h

/-! ### C8: evaluation summary -/

/-- C8: `get_evaluation_summary` on an empty history returns the sentinel
(never raises), and on a non-empty history returns the count, the rounded
mean, the maximum, and the minimum of the stored `overall_score` values. -/
theorem c8_summary_total (history : List ReportEvaluation) :
    get_evaluation_summary ([] : List ReportEvaluation) = EvalSummary.noEvaluations
    ∧ (history ≠ [] →
        ∃ hi lo,
          get_evaluation_summary history
            = EvalSummary.stats history.length
                (round2 ((history.map (fun x => x.overall_score)).sum
                  / ((history.map (fun x => x.overall_score)).length : ℚ)))
                hi lo history
          ∧ hi ∈ history.map (fun x => x.overall_score)
          ∧ (∀ s ∈ history.map (fun x => x.overall_score), s ≤ hi)
          ∧ lo ∈ history.map (fun x => x.overall_score)
          ∧ (∀ s ∈ history.map (fun x => x.overall_score), lo ≤ s)) := by
  refine ⟨rfl, ?_⟩
  intro h
  obtain ⟨e, rest, rfl⟩ := List.exists_cons_of_ne_nil h
  refine ⟨(rest.map (fun x : ReportEvaluation => x.overall_score)).foldl max e.overall_score,
          (rest.map (fun x : ReportEvaluation => x.overall_score)).foldl min e.overall_score,
          rfl, ?_, ?_, ?_, ?_⟩
  · rcases foldl_max_mem (rest.map (fun x => x.overall_score)) e.overall_score with h1 | h1
    · rw [h1]
      simp
    · simp only [List.map_cons]
      exact List.mem_cons_of_mem _ h1
  · intro s hs
    simp only [List.map_cons, List.mem_cons] at hs
    rcases hs with rfl | hs
    · exact (le_foldl_max _ _).1
    · exact (le_foldl_max _ _).2 s hs
  · rcases foldl_min_mem (rest.map (fun x => x.overall_score)) e.overall_score with h1 | h1
    · rw [h1]
      simp
    · simp only [List.map_cons]
      exact List.mem_cons_of_mem _ h1
  · intro s hs
    simp only [List.map_cons, List.mem_cons] at hs
    rcases hs with rfl | hs
    · exact (foldl_min_le _ _).1
    · exact (foldl_min_le _ _).2 s hs

/-- Witness for C8 at a one-element history. -/
theorem c8_summary_total_witness :
    (([evaluate_report [] none "t0"] : List ReportEvaluation) ≠ [])
    ∧ (∃ hi lo,
        get_evaluation_summary [evaluate_report [] none "t0"]
          = EvalSummary.stats ([evaluate_report [] none "t0"] : List ReportEvaluation).length
              (round2 ((([evaluate_report [] none "t0"] : List ReportEvaluation).map
                  (fun x => x.overall_score)).sum
                / ((([evaluate_report [] none "t0"] : List ReportEvaluation).map
                  (fun x => x.overall_score)).length : ℚ)))
              hi lo [evaluate_report [] none "t0"]
        ∧ hi ∈ ([evaluate_report [] none "t0"] : List ReportEvaluation).map (fun x => x.overall_score)
        ∧ (∀ s ∈ ([evaluate_report [] none "t0"] : List ReportEvaluation).map (fun x => x.overall_score), s ≤ hi)
        ∧ lo ∈ ([evaluate_report [] none "t0"] : List ReportEvaluation).map (fun x => x.overall_score)
        ∧ (∀ s ∈ ([evaluate_report [] none "t0"] : List ReportEvaluation).map (fun x => x.overall_score), lo ≤ s)) :=
  ⟨by simp, (c8_summary_total [evaluate_report [] none "t0"]).2 (by simp)⟩

/-! ### C10: only evaluate_report appends to the history -/

/-- C10: `evaluate_report` appends exactly its own evaluation record to
`evaluation_history`, while `evaluate_comparison` and `evaluate_charts`
return their record but leave the history unchanged; hence
`get_evaluation_summary` aggregates over `evaluate_report` results only. -/
theorem c10_only_report_appends (history : List ReportEvaluation)
    (report : List Char) (company : Option String) (companies : List String)
    (fs : String → Option Nat) (chart_paths : List (String × String))
    (now : String) :
    (evaluate_report_method history report company now).2
        = history ++ [(evaluate_report_method history report company now).1]
    ∧ (evaluate_comparison_method history report companies now).2 = history
    ∧ (evaluate_charts_method history fs chart_paths now).2.2 = history :=
  ⟨rfl, rfl, rfl⟩

/-! ### C5: evaluate_report on the empty string -/

/-- C5: on the empty report, `evaluate_report` yields `word_count = 0`,
`completeness_score = 0`, every required section missing, and the overall
score comes purely from the lowest word-count tier of the quality score
(`quality_score = 10`, `overall_score = 5.0`). -/
theorem c5_empty_report (company : Option String) (now : String) :
    (evaluate_report [] company now).word_count = 0
    ∧ (evaluate_report [] company now).completeness_score = 0
    ∧ (evaluate_report [] company now).sections_missing
        = ["Executive Summary", "Company Overview", "Competitive Analysis",
           "SWOT Analysis", "Strengths", "Weaknesses", "Opportunities",
           "Threats", "Pricing", "Recommendations", "Conclusion"]
    ∧ (evaluate_report [] company now).quality_score = 10
    ∧ (evaluate_report [] company now).overall_score = 5 := by
  have hfound0 : completenessOf [] = 0 := by
    unfold completenessOf
    rw [show sectionsFoundIn requiredSections (pyLower []) = [] from rfl]
    simp
  refine ⟨rfl, ?_, rfl, rfl, ?_⟩
  · show round2 (completenessOf []) = 0
    rw [hfound0, round2_zero]
  · show round2 (round2 (completenessOf []) * (1 / 2)
        + ((reportQualityOf [] : ℚ)) * (1 / 2)) = 5
    rw [hfound0, round2_zero, show reportQualityOf [] = 10 from rfl]
    rw [show (0 : ℚ) * (1 / 2) + ((10 : ℕ) : ℚ) * (1 / 2) = ((5 : ℕ) : ℚ) by push_cast; ring,
        round2_natCast]
    norm_num

/-! ### Extension lemmas: a pattern that matches a text still matches after
appending more text on the right. -/

theorem isPrefixOf_append_ext (w t u : List Char) (h : w.isPrefixOf t = true) :
    w.isPrefixOf (t ++ u) = true := by
  rw [List.isPrefixOf_iff_prefix] at h ⊢
  exact h.trans (List.prefix_append t u)

theorem endPat_ext : ∀ (t u : List Char), endPat t = true → endPat (t ++ u) = true := by
  intro t u _
  rfl

theorem litThen_ext (w : List Char) (k : List Char → Bool)
    (hk : ∀ t u, k t = true → k (t ++ u) = true) :
    ∀ t u, litThen w k t = true → litThen w k (t ++ u) = true := by
  intro t u h
  unfold litThen at h ⊢
  rw [Bool.and_eq_true] at h ⊢
  obtain ⟨h1, h2⟩ := h
  have hlen : w.length ≤ t.length := by
    rw [List.isPrefixOf_iff_prefix] at h1
    exact h1.length_le
  refine ⟨isPrefixOf_append_ext w t u h1, ?_⟩
  rw [List.drop_append_of_le_length hlen]
  exact hk _ _ h2

theorem wsPlusThen_ext (k : List Char → Bool)
    (hk : ∀ t u, k t = true → k (t ++ u) = true) :
    ∀ t u, wsPlusThen k t = true → wsPlusThen k (t ++ u) = true := by
  intro t
  induction t with
  | nil => intro u h; simp [wsPlusThen] at h
  | cons c rest ih =>
      intro u h
      simp only [wsPlusThen, Bool.and_eq_true, Bool.or_eq_true, List.cons_append] at h ⊢
      obtain ⟨hw, h2⟩ := h
      refine ⟨hw, ?_⟩
      rcases h2 with h2 | h2
      · exact Or.inl (hk _ _ h2)
      · exact Or.inr (ih u h2)

theorem dotStarThen_ext (k : List Char → Bool)
    (hk : ∀ t u, k t = true → k (t ++ u) = true) :
    ∀ t u, dotStarThen k t = true → dotStarThen k (t ++ u) = true := by
  intro t
  induction t with
  | nil =>
      intro u h
      have hku : k u = true := by simpa using hk [] u (by simpa [dotStarThen] using h)
      cases u with
      | nil => simpa [dotStarThen] using hku
      | cons c rest => simp [dotStarThen, hku]
  | cons c rest ih =>
      intro u h
      simp only [dotStarThen, Bool.or_eq_true, Bool.and_eq_true, List.cons_append] at h ⊢
      rcases h with h | h
      · exact Or.inl (hk _ _ h)
      · exact Or.inr ⟨h.1, ih u h.2⟩

theorem searchBy_ext (m : List Char → Bool)
    (hm : ∀ t u, m t = true → m (t ++ u) = true) :
    ∀ t u, searchBy m t = true → searchBy m (t ++ u) = true := by
  intro t
  induction t with
  | nil =>
      intro u h
      have hmu : m u = true := by simpa using hm [] u (by simpa [searchBy] using h)
      cases u with
      | nil => simpa [searchBy] using hmu
      | cons c rest => simp [searchBy, hmu]
  | cons c rest ih =>
      intro u h
      simp only [searchBy, Bool.or_eq_true, List.cons_append] at h ⊢
      rcases h with h | h
      · exact Or.inl (hm _ _ h)
      · exact Or.inr (ih u h)

theorem searchWordColon_ext (w : List Char) :
    ∀ (t : List Char) (b : Bool) (u : List Char),
      searchWordColon w b t = true → searchWordColon w b (t ++ u) = true := by
  intro t
  induction t with
  | nil => intro b u h; simp [searchWordColon] at h
  | cons c rest ih =>
      intro b u h
      simp only [searchWordColon, Bool.or_eq_true, Bool.and_eq_true,
        List.cons_append] at h ⊢
      rcases h with h | h
      · exact Or.inl ⟨h.1, litThen_ext w _ (litThen_ext [':'] _ endPat_ext) _ u h.2⟩
      · exact Or.inr (ih (isWordChar c) u h)

theorem lit_ext (s : String) :
    ∀ t u, lit s t = true → lit s (t ++ u) = true :=
  searchBy_ext _ (litThen_ext _ _ endPat_ext)

theorem word2_ext (a b : String) :
    ∀ t u, word2 a b t = true → word2 a b (t ++ u) = true :=
  searchBy_ext _ (litThen_ext _ _ (wsPlusThen_ext _ (litThen_ext _ _ endPat_ext)))

theorem word3_ext (a b c : String) :
    ∀ t u, word3 a b c t = true → word3 a b c (t ++ u) = true :=
  searchBy_ext _ (litThen_ext _ _ (wsPlusThen_ext _
    (litThen_ext _ _ (wsPlusThen_ext _ (litThen_ext _ _ endPat_ext)))))

theorem word2alt_ext (a b c : String) :
    ∀ t u, word2alt a b c t = true → word2alt a b c (t ++ u) = true :=
  searchBy_ext _ (litThen_ext _ _ (wsPlusThen_ext _ (fun t u h => by
    rw [Bool.or_eq_true] at h ⊢
    rcases h with h | h
    · exact Or.inl (litThen_ext _ _ endPat_ext t u h)
    · exact Or.inr (litThen_ext _ _ endPat_ext t u h))))

theorem wordDotStar_ext (a b : String) :
    ∀ t u, wordDotStar a b t = true → wordDotStar a b (t ++ u) = true :=
  searchBy_ext _ (litThen_ext _ _ (dotStarThen_ext _ (litThen_ext _ _ endPat_ext)))

theorem boldOrColon_ext (w : String) :
    ∀ t u, boldOrColon w t = true → boldOrColon w (t ++ u) = true := by
  intro t u h
  unfold boldOrColon at h ⊢
  rw [Bool.or_eq_true] at h ⊢
  rcases h with h | h
  · exact Or.inl (lit_ext _ t u h)
  · exact Or.inr (searchWordColon_ext _ t false u h)

/-! ### Word-count lemmas for the filler text -/

theorem fillerWords_succ (n : Nat) :
    fillerWords (n + 1) = ' ' :: 'a' :: fillerWords n := by
  unfold fillerWords
  rw [List.replicate_succ, List.flatten_cons]
  rfl

theorem pySplitAux_filler (n : Nat) :
    (pySplitAux ['a'] (fillerWords n)).length = n + 1 := by
  induction n with
  | zero => rfl
  | succ n ih =>
      rw [fillerWords_succ]
      show ((['a'].reverse) :: pySplitAux ['a'] (fillerWords n)).length = (n + 1) + 1
      rw [List.length_cons, ih]

theorem pySplitAux_filler_ge (n : Nat) (cur : List Char) :
    n ≤ (pySplitAux cur (fillerWords n)).length := by
  cases n with
  | zero => exact Nat.zero_le _
  | succ n =>
      rw [fillerWords_succ]
      cases cur with
      | nil =>
          show n + 1 ≤ (pySplitAux ['a'] (fillerWords n)).length
          rw [pySplitAux_filler]
      | cons x xs =>
          show n + 1 ≤ (((x :: xs).reverse) :: pySplitAux ['a'] (fillerWords n)).length
          rw [List.length_cons, pySplitAux_filler]
          omega

theorem pySplitAux_prepend_filler :
    ∀ (xs cur : List Char) (n : Nat),
      n ≤ (pySplitAux cur (xs ++ fillerWords n)).length := by
  intro xs
  induction xs with
  | nil => intro cur n; exact pySplitAux_filler_ge n cur
  | cons c rest ih =>
      intro cur n
      rw [List.cons_append]
      by_cases hw : c.isWhitespace
      · by_cases hc : cur.isEmpty
        · have hstep : pySplitAux cur (c :: (rest ++ fillerWords n))
              = pySplitAux [] (rest ++ fillerWords n) := by
            simp [pySplitAux, hw, hc]
          rw [hstep]
          exact ih [] n
        · have hstep : pySplitAux cur (c :: (rest ++ fillerWords n))
              = cur.reverse :: pySplitAux [] (rest ++ fillerWords n) := by
            simp [pySplitAux, hw, hc]
          rw [hstep, List.length_cons]
          exact le_trans (ih [] n) (Nat.le_succ _)
      · have hstep : pySplitAux cur (c :: (rest ++ fillerWords n))
            = pySplitAux (c :: cur) (rest ++ fillerWords n) := by
          simp [pySplitAux, hw]
        rw [hstep]
        exact ih (c :: cur) n

/-! ### Substring-count lemmas -/

theorem countSubAux_short (sub : List Char) :
    ∀ (t : List Char), t.length < sub.length → countSubAux sub 0 t = 0 := by
  intro t
  induction t with
  | nil => intro _; rfl
  | cons c rest ih =>
      intro h
      have hnp : sub.isPrefixOf (c :: rest) = false := by
        cases hv : sub.isPrefixOf (c :: rest)
        · rfl
        · exfalso
          rw [List.isPrefixOf_iff_prefix] at hv
          have hl := hv.length_le
          omega
      have hstep : countSubAux sub 0 (c :: rest) = countSubAux sub 0 rest := by
        simp [countSubAux, hnp]
      rw [hstep]
      exact ih (by simp at h ⊢; omega)

theorem countSubAux_append_ge (sub ys : List Char) :
    ∀ (xs : List Char) (skip : Nat),
      countSubAux sub skip xs ≤ countSubAux sub skip (xs ++ ys) := by
  intro xs
  induction xs with
  | nil => intro skip; simp [countSubAux]
  | cons c rest ih =>
      intro skip
      cases skip with
      | succ k =>
          show countSubAux sub k rest ≤ countSubAux sub k (rest ++ ys)
          exact ih k
      | zero =>
          by_cases hp : sub.isPrefixOf (c :: rest) = true
          · have hp2 : sub.isPrefixOf (c :: (rest ++ ys)) = true := by
              have := isPrefixOf_append_ext sub (c :: rest) ys hp
              simpa using this
            have e1 : countSubAux sub 0 (c :: rest)
                = 1 + countSubAux sub (sub.length - 1) rest := by
              simp [countSubAux, hp]
            have e2 : countSubAux sub 0 ((c :: rest) ++ ys)
                = 1 + countSubAux sub (sub.length - 1) (rest ++ ys) := by
              rw [List.cons_append]
              simp [countSubAux, hp2]
            rw [e1, e2]
            exact Nat.add_le_add_left (ih _) 1
          · have hp' : sub.isPrefixOf (c :: rest) = false := Bool.eq_false_iff.mpr hp
            have e1 : countSubAux sub 0 (c :: rest) = countSubAux sub 0 rest := by
              simp [countSubAux, hp']
            by_cases hq : sub.isPrefixOf (c :: (rest ++ ys)) = true
            · have hlen : (c :: rest).length < sub.length := by
                by_contra hcon
                push_neg at hcon
                have hpt : sub.isPrefixOf (c :: rest) = true := by
                  rw [List.isPrefixOf_iff_prefix] at hq ⊢
                  rw [List.prefix_iff_eq_take] at hq ⊢
                  rw [show (c :: (rest ++ ys)) = (c :: rest) ++ ys from rfl,
                    List.take_append_of_le_length hcon] at hq
                  exact hq
                rw [hpt] at hp'
                exact absurd hp' (by simp)
              have hz : countSubAux sub 0 rest = 0 :=
                countSubAux_short sub rest (by simp at hlen; omega)
              rw [e1, hz]
              exact Nat.zero_le _
            · have hq' : sub.isPrefixOf (c :: (rest ++ ys)) = false :=
                Bool.eq_false_iff.mpr hq
              have e2 : countSubAux sub 0 ((c :: rest) ++ ys)
                  = countSubAux sub 0 (rest ++ ys) := by
                rw [List.cons_append]
                simp [countSubAux, hq']
              rw [e1, e2]
              exact ih 0

/-! ### Dictionary fold lemmas -/

theorem dictGet_foldl_set_not_mem {α : Type} (f : String → α) :
    ∀ (ks : List String) (d : List (String × α)) (c : String), c ∉ ks →
      dictGet (ks.foldl (fun d k => dictSet d k (f k)) d) c = dictGet d c := by
  intro ks
  induction ks with
  | nil => intro d c _; rfl
  | cons k rest ih =>
      intro d c h
      simp only [List.mem_cons, not_or] at h
      simp only [List.foldl_cons]
      rw [ih _ _ h.2]
      exact dictGet_set_ne _ _ _ _ h.1

theorem dictGet_foldl_set_mem {α : Type} (f : String → α) :
    ∀ (ks : List String) (d : List (String × α)) (c : String), c ∈ ks →
      dictGet (ks.foldl (fun d k => dictSet d k (f k)) d) c = some (f c) := by
  intro ks
  induction ks with
  | nil => intro d c h; simp at h
  | cons k rest ih =>
      intro d c h
      simp only [List.foldl_cons]
      by_cases hc : c ∈ rest
      · exact ih _ _ hc
      · have hck : c = k := by
          rcases List.mem_cons.mp h with h1 | h1
          · exact h1
          · exact absurd h1 hc
        subst hck
        rw [dictGet_foldl_set_not_mem f rest _ _ hc]
        exact dictGet_set_self _ _ _

theorem dictGet_foldl_pairs_not_mem {α : Type} (f : String × String → α) :
    ∀ (ps : List (String × String)) (d : List (String × α)) (c : String),
      c ∉ ps.map Prod.fst →
      dictGet (ps.foldl (fun d p => dictSet d p.1 (f p)) d) c = dictGet d c := by
  intro ps
  induction ps with
  | nil => intro d c _; rfl
  | cons q rest ih =>
      intro d c h
      simp only [List.map_cons, List.mem_cons, not_or] at h
      simp only [List.foldl_cons]
      rw [ih _ _ h.2]
      exact dictGet_set_ne _ _ _ _ h.1

theorem dictGet_foldl_pairs_mem {α : Type} (f : String × String → α) :
    ∀ (ps : List (String × String)) (d : List (String × α)),
      (ps.map Prod.fst).Nodup →
      ∀ kp ∈ ps, dictGet (ps.foldl (fun d p => dictSet d p.1 (f p)) d) kp.1 = some (f kp) := by
  intro ps
  induction ps with
  | nil => intro d _ kp hkp; simp at hkp
  | cons q rest ih =>
      intro d hnd kp hkp
      simp only [List.map_cons, List.nodup_cons] at hnd
      simp only [List.foldl_cons]
      rcases List.mem_cons.mp hkp with h1 | h1
      · subst h1
        rw [dictGet_foldl_pairs_not_mem f rest _ _ hnd.1]
        exact dictGet_set_self _ _ _
      · exact ih _ hnd.2 kp h1

/-! ### C4: comparison with an unmentioned company -/

theorem balancedCoverage_min_zero (v : Nat) (vs : List Nat)
    (h : vs.foldl min v = 0) : balancedCoverageOf (v :: vs) = Except.ok false := by
  have h0 : pyMinNat (v :: vs) = Except.ok 0 := by
    simp [pyMinNat, h]
  unfold balancedCoverageOf
  rw [h0]
  rfl

/-- C4: on any comparison report and non-empty companies list where some
company never occurs (case-insensitively), `evaluate_comparison` returns
normally (no ZeroDivisionError: the zero minimum takes the guarded `else`
branch) with `all_companies_mentioned = False` and
`balanced_coverage = False`. -/
theorem c4_comparison_zero_mention (report : List Char) (companies : List String)
    (now : String) (hne : companies ≠ [])
    (hzero : ∃ c ∈ companies, countSub (pyLower c.data) (pyLower report) = 0) :
    ∃ ev, evaluate_comparison report companies now = Except.ok ev
      ∧ ev.metrics.all_companies_mentioned = false
      ∧ ev.metrics.balanced_coverage = false := by
  obtain ⟨c, hc, hcnt⟩ := hzero
  have hlook : dictGet (mentionCounts report companies) c
      = some (countSub (pyLower c.data) (pyLower report)) :=
    dictGet_foldl_set_mem (fun s => countSub (pyLower s.data) (pyLower report))
      companies [] c hc
  rw [hcnt] at hlook
  have hmem : (c, 0) ∈ mentionCounts report companies := mem_of_dictGet_eq_some hlook
  have hval0 : (0 : Nat) ∈ mentionValues report companies := by
    unfold mentionValues
    exact List.mem_map_of_mem (fun p => p.2) hmem
  obtain ⟨v, vs, hvs⟩ := List.exists_cons_of_ne_nil (List.ne_nil_of_mem hval0)
  have hmin0 : vs.foldl min v = 0 := by
    have h0le : vs.foldl min v ≤ 0 := by
      rw [hvs] at hval0
      rcases List.mem_cons.mp hval0 with h2 | h2
      · exact le_of_le_of_eq (foldl_min_le vs v).1 h2.symm
      · exact (foldl_min_le vs v).2 0 h2
    omega
  have hbal : balancedCoverageOf (mentionValues report companies) = Except.ok false := by
    rw [hvs]
    exact balancedCoverage_min_zero v vs hmin0
  have hall : (mentionValues report companies).all (fun x => decide (x > 0)) = false := by
    apply Bool.eq_false_iff.mpr
    intro hA
    have h0 := List.all_eq_true.mp hA 0 hval0
    simp at h0
  have hrun : evaluate_comparison report companies now = Except.ok
      { timestamp := now
        companies := companies
        num_companies := companies.length
        word_count := wordCount report
        sections_found := sectionsFoundIn comparisonSections (pyLower report)
        metrics := comparisonMetricsOf report companies false
        completeness_score := round2 (comparisonCompletenessOf report)
        quality_score := comparisonQualityOf (comparisonMetricsOf report companies false)
        overall_score := round2 ((comparisonCompletenessOf report
          + (comparisonQualityOf (comparisonMetricsOf report companies false) : ℚ)) / 2) } := by
    unfold evaluate_comparison
    rw [hbal]
    rfl
  exact ⟨_, hrun, hall, rfl⟩

/-- Witness for C4: companies `["A", "B"]` with `"A"` occurring 5 times and
`"B"` never. -/
theorem c4_comparison_zero_mention_witness :
    ((["A", "B"] : List String) ≠ [])
    ∧ countSub (pyLower ("B").data) (pyLower (("A A A A A").data)) = 0
    ∧ (∃ ev, evaluate_comparison (("A A A A A").data) ["A", "B"] "t" = Except.ok ev
        ∧ ev.metrics.all_companies_mentioned = false
        ∧ ev.metrics.balanced_coverage = false) :=
  ⟨by decide, by decide,
   c4_comparison_zero_mention (("A A A A A").data) ["A", "B"] "t" (by decide)
     ⟨"B", by decide, by decide⟩⟩

/-! ### C7: chart evaluation -/

/-- C7 (amended: a mapping with more than three entries pushes the score
above 100, see the counterexample; within at most three entries the score
stays in [0, 100]): `evaluate_charts` leaves the file system unchanged
(creates no files), scores exactly `100 * (paths provided / 3)`, and
records for each provided path its existence on disk and its byte size
(0 when the path is empty or the file is absent). -/
theorem c7_charts_eval (fs : String → Option Nat)
    (chart_paths : List (String × String)) (now : String)
    (hnd : (chart_paths.map Prod.fst).Nodup) :
    (evaluate_charts fs chart_paths now).2 = fs
    ∧ (evaluate_charts fs chart_paths now).1.score
        = ((chart_paths.length : ℚ) / 3) * 100
    ∧ 0 ≤ (evaluate_charts fs chart_paths now).1.score
    ∧ (chart_paths.length ≤ 3 → (evaluate_charts fs chart_paths now).1.score ≤ 100)
    ∧ (∀ kp ∈ chart_paths,
        dictGet (evaluate_charts fs chart_paths now).1.charts kp.1
          = some (chartRecordOf fs kp.1 kp.2)) := by
  refine ⟨rfl, rfl, ?_, ?_, ?_⟩
  · show (0 : ℚ) ≤ ((chart_paths.length : ℚ) / 3) * 100
    positivity
  · intro hlen
    show ((chart_paths.length : ℚ) / 3) * 100 ≤ 100
    have h3 : ((chart_paths.length : ℕ) : ℚ) ≤ 3 := by exact_mod_cast hlen
    rw [div_mul_eq_mul_div, div_le_iff₀ (by norm_num : (0 : ℚ) < 3)]
    nlinarith [h3]
  · intro kp hkp
    exact dictGet_foldl_pairs_mem (fun p => chartRecordOf fs p.1 p.2)
      chart_paths [] hnd kp hkp

/-- Witness for C7: three chart kinds, one existing file of 1024 bytes, one
empty path, one missing file. -/
theorem c7_charts_eval_witness :
    ((([("radar", "chart_radar.png"), ("bar", ""), ("heatmap", "missing.png")]
        : List (String × String)).map Prod.fst).Nodup)
    ∧ ((evaluate_charts (fun p => if p = "chart_radar.png" then some 1024 else none)
          [("radar", "chart_radar.png"), ("bar", ""), ("heatmap", "missing.png")] "t").2
        = (fun p => if p = "chart_radar.png" then some 1024 else none)
      ∧ (evaluate_charts (fun p => if p = "chart_radar.png" then some 1024 else none)
          [("radar", "chart_radar.png"), ("bar", ""), ("heatmap", "missing.png")] "t").1.score
        = ((([("radar", "chart_radar.png"), ("bar", ""), ("heatmap", "missing.png")]
            : List (String × String)).length : ℚ) / 3) * 100
      ∧ 0 ≤ (evaluate_charts (fun p => if p = "chart_radar.png" then some 1024 else none)
          [("radar", "chart_radar.png"), ("bar", ""), ("heatmap", "missing.png")] "t").1.score
      ∧ (([("radar", "chart_radar.png"), ("bar", ""), ("heatmap", "missing.png")]
            : List (String × String)).length ≤ 3 →
          (evaluate_charts (fun p => if p = "chart_radar.png" then some 1024 else none)
            [("radar", "chart_radar.png"), ("bar", ""), ("heatmap", "missing.png")] "t").1.score ≤ 100)
      ∧ (∀ kp ∈ ([("radar", "chart_radar.png"), ("bar", ""), ("heatmap", "missing.png")]
            : List (String × String)),
          dictGet (evaluate_charts (fun p => if p = "chart_radar.png" then some 1024 else none)
            [("radar", "chart_radar.png"), ("bar", ""), ("heatmap", "missing.png")] "t").1.charts kp.1
            = some (chartRecordOf (fun p => if p = "chart_radar.png" then some 1024 else none)
                kp.1 kp.2))) :=
  ⟨by decide,
   c7_charts_eval (fun p => if p = "chart_radar.png" then some 1024 else none)
     [("radar", "chart_radar.png"), ("bar", ""), ("heatmap", "missing.png")] "t"
     (by decide)⟩

/-- Counterexample to C7 as stated: a four-entry mapping scores
`400/3 > 100`, so the score is not bounded by 100 for every input. -/
theorem c7_counterexample :
    (evaluate_charts (fun _ => none)
        [("radar", "a"), ("bar", "b"), ("heatmap", "c"), ("extra", "d")] "t").1.score
      = 400 / 3
    ∧ ¬ ((evaluate_charts (fun _ => none)
        [("radar", "a"), ("bar", "b"), ("heatmap", "c"), ("extra", "d")] "t").1.score ≤ 100) := by
  constructor
  · show ((((4 : ℕ)) : ℚ) / 3) * 100 = 400 / 3
    norm_num
  · show ¬ (((((4 : ℕ)) : ℚ) / 3) * 100 ≤ 100)
    norm_num

/-! ### C6: a complete report scores 100 -/

/-- `countSub` on a non-empty needle is the auxiliary scan. -/
theorem countSub_cons (c : Char) (cs t : List Char) :
    countSub (c :: cs) t = countSubAux (c :: cs) 0 t := rfl

theorem qualityScoreOf_max (wc : Nat) (m : ReportMetrics)
    (h1 : wc ≥ 5000) (h2 : m.has_all_swot_parts = true)
    (h3 : m.bullet_points ≥ 20) (h4 : m.headers ≥ 8)
    (h5 : m.has_recommendations = true) (h6 : m.has_conclusion = true) :
    qualityScoreOf wc m = 100 := by
  unfold qualityScoreOf
  rw [if_pos h1, if_pos h3, if_pos h4, h2, h5, h6]
  norm_num

/-- C6: a report matching all eleven required-section patterns with at
least 5000 words, 20 bullet markers, and 8 header characters gets
`completeness_score = 100`, `quality_score = 100`, `overall_score = 100`. -/
theorem c6_full_report (report : List Char) (company : Option String) (now : String)
    (hsec : ∀ p ∈ requiredSections, p.2 (pyLower report) = true)
    (hwc : wordCount report ≥ 5000)
    (hb : countSub ("- ").data report + countSub ("* ").data report ≥ 20)
    (hh : countSub ("#").data report ≥ 8) :
    (evaluate_report report company now).completeness_score = 100
    ∧ (evaluate_report report company now).quality_score = 100
    ∧ (evaluate_report report company now).overall_score = 100 := by
  simp only [requiredSections, List.forall_mem_cons, List.not_mem_nil,
    false_implies, implies_true, and_true] at hsec
  obtain ⟨h1, h2, h3, h4, h5, h6, h7, h8, h9, h10, h11⟩ := hsec
  have hfound : sectionsFoundIn requiredSections (pyLower report)
      = ["Executive Summary", "Company Overview", "Competitive Analysis",
         "SWOT Analysis", "Strengths", "Weaknesses", "Opportunities",
         "Threats", "Pricing", "Recommendations", "Conclusion"] := by
    unfold sectionsFoundIn
    simp [requiredSections, h1, h2, h3, h4, h5, h6, h7, h8, h9, h10, h11]
  have hmetval : reportMetricsOf report
      = ({ has_swot := true,
           has_all_swot_parts := true,
           has_recommendations := true,
           has_conclusion := true,
           adequate_length := decide (wordCount report ≥ 1000),
           comprehensive_length := decide (wordCount report ≥ 3000),
           bullet_points := countSub ("- ").data report + countSub ("* ").data report,
           headers := countSub ("#").data report } : ReportMetrics) := by
    unfold reportMetricsOf reportMetrics
    rw [hfound]
    exact rfl
  have hq100 : reportQualityOf report = 100 := by
    unfold reportQualityOf
    rw [qualityScoreOf_max (wordCount report) (reportMetricsOf report) hwc
      (by rw [hmetval]) (by rw [hmetval]; exact hb) (by rw [hmetval]; exact hh)
      (by rw [hmetval]) (by rw [hmetval])]
    rfl
  have hcomp : completenessOf report = 100 := by
    unfold completenessOf
    rw [hfound]
    norm_num [requiredSections]
  have hround : round2 (completenessOf report) = 100 := by
    rw [hcomp, show (100 : ℚ) = ((100 : ℕ) : ℚ) by norm_num, round2_natCast]
  refine ⟨hround, hq100, ?_⟩
  show round2 (round2 (completenessOf report) * (1 / 2)
      + ((reportQualityOf report : ℚ)) * (1 / 2)) = 100
  rw [hround, hq100]
  rw [show (100 : ℚ) * (1 / 2) + ((100 : ℕ) : ℚ) * (1 / 2) = ((100 : ℕ) : ℚ) by push_cast; ring,
      round2_natCast]
  norm_num

set_option maxRecDepth 8000

/-- Witness for C6: the concrete report `c6Report` (all section patterns in
its head, 5000 filler words appended). -/
theorem c6_full_report_witness :
    (∀ p ∈ requiredSections, p.2 (pyLower c6Report) = true)
    ∧ wordCount c6Report ≥ 5000
    ∧ countSub ("- ").data c6Report + countSub ("* ").data c6Report ≥ 20
    ∧ countSub ("#").data c6Report ≥ 8
    ∧ ((evaluate_report c6Report none "t").completeness_score = 100
      ∧ (evaluate_report c6Report none "t").quality_score = 100
      ∧ (evaluate_report c6Report none "t").overall_score = 100) := by
  have hmap : pyLower c6Report = pyLower c6Header.data ++ pyLower (fillerWords 5000) := by
    unfold c6Report pyLower
    exact List.map_append _ _ _
  have hsec : ∀ p ∈ requiredSections, p.2 (pyLower c6Report) = true := by
    simp only [requiredSections, List.forall_mem_cons, List.not_mem_nil,
      false_implies, implies_true, and_true]
    rw [hmap]
    refine ⟨?_, ?_, ?_, ?_, ?_, ?_, ?_, ?_, ?_, ?_, ?_⟩
    · exact word2_ext "executive" "summary" _ _ (by decide)
    · exact word2_ext "company" "overview" _ _ (by decide)
    · exact word2_ext "competitive" "analysis" _ _ (by decide)
    · exact word2_ext "swot" "analysis" _ _ (by decide)
    · exact boldOrColon_ext "strengths" _ _ (by decide)
    · exact boldOrColon_ext "weaknesses" _ _ (by decide)
    · exact boldOrColon_ext "opportunities" _ _ (by decide)
    · exact boldOrColon_ext "threats" _ _ (by decide)
    · exact word2alt_ext "pricing" "strategy" "analysis" _ _ (by decide)
    · rw [lit_ext "recommendation" _ _ (by decide)]
      rfl
    · exact lit_ext "conclusion" _ _ (by decide)
  have hwc : wordCount c6Report ≥ 5000 := by
    show 5000 ≤ (pySplitAux [] (c6Header.data ++ fillerWords 5000)).length
    exact pySplitAux_prepend_filler c6Header.data [] 5000
  have hrep : c6Report = c6Header.data ++ fillerWords 5000 := rfl
  have hbul : countSub ("- ").data c6Report + countSub ("* ").data c6Report ≥ 20 := by
    have h1 : (20 : Nat) ≤ countSub ("- ").data c6Report := by
      rw [show ("- ").data = ['-', ' '] from rfl, countSub_cons, hrep]
      calc (20 : Nat) = countSubAux ['-', ' '] 0 c6Header.data := by decide
        _ ≤ countSubAux ['-', ' '] 0 (c6Header.data ++ fillerWords 5000) :=
            countSubAux_append_ge _ _ _ 0
    omega
  have hhash : countSub ("#").data c6Report ≥ 8 := by
    rw [show ("#").data = ['#'] from rfl, countSub_cons, hrep]
    calc (8 : Nat) = countSubAux ['#'] 0 c6Header.data := by decide
      _ ≤ countSubAux ['#'] 0 (c6Header.data ++ fillerWords 5000) :=
          countSubAux_append_ge _ _ _ 0
  exact ⟨hsec, hwc, hbul, hhash, c6_full_report c6Report none "t" hsec hwc hbul hhash⟩
